import Mathlib

/-!
# hargo load test (`src/load.go`)

A shallow embedding of `LoadTest`, `wait` and `processEntries`.

* Pure parts of `processEntries` (the transport set-up of lines 64–97, the
  latency computation, the construction of a `TestResult`) are Lean functions.
* The goroutines are embedded as an interleaving transition system: a `State`
  holds the channels, the clock and the control point of every goroutine, an
  `Action` is one scheduling choice (together with what the outside world
  answers: elapsed time, the outcome of `httpClient.Do`, the next entry of the
  capture file), `step` is the effect of that choice and `run` folds `step`
  over a schedule.
* The runtime is taken to have the memory it is asked for; what it checks of a
  request itself (the size check of `make` for a channel) is part of the
  embedding.
-/

namespace Hargo

/-! ## Time -/

/-- Nanoseconds in `time.Millisecond`. -/
def Millisecond : Int := 1000000

/-- Nanoseconds in `time.Second`. -/
def Second : Int := 1000 * Millisecond

/-- Largest `time.Duration` (an `int64`). -/
def maxDuration : Int := 2 ^ 63 - 1

/-- Smallest `time.Duration` (an `int64`). -/
def minDuration : Int := -(2 ^ 63)

/-- Two's complement wrap-around of a 64 bit signed integer. -/
def wrap64 (x : Int) : Int := (x + 2 ^ 63) % 2 ^ 64 - 2 ^ 63

/-- The method `Sub` of `time.Time` (`time.subMono`). A `time.Time` taken by
`time.Now()` is kept as its reading of the monotonic clock, in nanoseconds, and
`Sub` of two such values uses only these readings: the `int64` difference,
saturated at the ends of the `Duration` range. -/
def Time.Sub (t u : Int) : Int :=
  let d := wrap64 (t - u)
  if d < 0 ∧ t > u then maxDuration
  else if d > 0 ∧ t < u then minDuration
  else d

/-- Line 117: `int(endTime.Sub(startTime) / time.Millisecond)`. Go's integer
division truncates toward zero; `int` is the 64 bit integer of the 64 bit
targets. -/
def latencyOf (startTime endTime : Int) : Int :=
  wrap64 ((Time.Sub endTime startTime).tdiv Millisecond)

/-! ## Data -/

/-- A `url.URL`, kept as its rendering. The zero value `url.URL{}` renders as
the empty string. -/
structure URL where
  text : String
deriving DecidableEq, Repr

/-- The method `String` of `url.URL`. -/
def URL.String (u : URL) : String := u.text

/-- The request recorded in a capture entry; `processEntries` itself reads only
`entry.Request.URL` (line 106). -/
structure HarRequest where
  Method : String
  URL : String
deriving DecidableEq, Repr

/-- One recorded entry of the capture file. -/
structure Entry where
  Request : HarRequest
deriving DecidableEq, Repr

/-- The fields of `http.Request` the worker touches. -/
structure Request where
  Method : String
  URL : URL
  Cookies : List String
deriving DecidableEq, Repr

/-- The field of `http.Response` the worker reads. -/
structure Response where
  StatusCode : Int
deriving DecidableEq, Repr

/-- The record sent on `results`, with the fields of the composite literals of
lines 124–131 and 144–151. -/
structure TestResult where
  URL : String
  Status : Int
  StartTime : Int
  EndTime : Int
  Latency : Int
  Method : String
  HarFile : String
deriving DecidableEq, Repr

/-- The arguments of `LoadTest` (the capture file itself is read by the entry
supply only). `workers` is a Go `int`. Of `u`, `LoadTest` only tests whether it
is the zero value of the struct: `none` is `url.URL{}`, `some v` is any other
value (whatever it renders as). -/
structure Params where
  harfile : String
  workers : Int
  timeout : Int
  u : Option URL
  ignoreHarCookies : Bool
  insecureSkipVerify : Bool

/-! ## Transport set-up (lines 64–97) -/

/-- A `proxy.Dialer`: `proxy.Direct` or a dialer built by `proxy.FromURL`. -/
inductive Dialer where
  | Direct
  | viaProxy (proxyURL : URL)
deriving DecidableEq, Repr

/-- What `http.Transport.Dial` can hold in `processEntries`: the `Dial` method
of a `net.Dialer` with the given `Timeout` and `KeepAlive`, or the `Dial`
method of a `proxy.Dialer`. -/
inductive DialFn where
  | netDialer (Timeout KeepAlive : Int)
  | ofDialer (d : Dialer)
deriving DecidableEq, Repr

/-- The connect timeout and keep-alive interval a dial function runs with, when
the code fixes them: `proxy.Direct` dials with `net.Dial`, that is with the zero
`net.Dialer` (no connect timeout, keep-alive left at the platform default). -/
def DialFn.settings : DialFn → Option (Int × Int)
  | .netDialer t k => some (t, k)
  | .ofDialer .Direct => some (0, 0)
  | .ofDialer (.viaProxy _) => none

/-- The fields of `http.Transport` that `processEntries` sets. -/
structure Transport where
  Dial : DialFn
  InsecureSkipVerify : Bool
  TLSHandshakeTimeout : Int
  ResponseHeaderTimeout : Int
  ExpectContinueTimeout : Int
deriving DecidableEq, Repr

/-- The collaborators of `load.go` that live outside it: the process
environment, `url.Parse`, `proxy.FromURL` on a non-nil URL, and the
repository's `EntryToRequest`. `url.Parse` returns a nil URL exactly when it
returns an error; `proxy.FromURL` returns a nil dialer when it returns an
error. `EntryToRequest` returns the Go pair `(req, err)`, `none` standing for
nil. The last three fields are what the runtime's `makechan` compares a buffer
size with: the size in bytes of the element type `Entry` (declared outside
`load.go`), and the platform's `maxAlloc` and `hchanSize`. -/
structure Env where
  LookupEnv : String → Option String
  urlParse : String → Except String URL
  proxyFromURL : URL → Except String Dialer
  EntryToRequest : Entry → Bool → Option Request × Option String
  entrySize : Nat
  maxAlloc : Nat
  hchanSize : Nat

/-- The size check of the runtime's `makechan` for `make(chan Entry, size)`:
`mem, overflow := math.MulUintptr(elem.size, uintptr(size))` and then
`overflow || mem > maxAlloc-hchanSize || size < 0` panics with "makechan: size
out of range". Running out of memory below that limit is not modelled. -/
def makechanPanics (env : Env) (size : Int) : Bool :=
  decide (2 ^ 64 ≤ (env.entrySize : Int) * size) ||
    decide ((env.maxAlloc : Int) - env.hchanSize < (env.entrySize : Int) * size) ||
    decide (size < 0)

/-- Why the process stops other than by returning. -/
inductive Halt where
  /-- The call `check(err)` with a non-nil error. -/
  | fatal (err : String)
  /-- The call `make(chan Entry, workers)` with a size `makechan` rejects. -/
  | makechan
  /-- The call `proxy.FromURL(proxyURL, ...)` with a nil `proxyURL`: the
  function reads `u.User`. -/
  | nilProxyURL
  /-- The method value `dialer.Dial` of a nil `proxy.Dialer` (line 97). -/
  | nilDialer
  /-- The read `req.URL` of a nil request (line 112). -/
  | nilRequest
  /-- The read `resp.StatusCode` of a nil response (line 140). -/
  | nilResponse
  /-- A send on the closed `results` channel. -/
  | sendOnClosed (tr : TestResult)
deriving DecidableEq, Repr

/-- A line written to the log or to standard output. -/
inductive LogLine where
  | starting (workers : Int) (timeout : Int)
  | invalidProxy (proxyURL : Option URL)
  | doError (err : String)
  | doErrorEntry (entry : Entry)
  | done (worker : Nat) (iter : Int) (url : String) (status latency : Int)
  | elapsed (timeout : Int)
deriving DecidableEq, Repr

/-- Lines 66–76: the choice of the dialer. The result is the log written and
either a panic or the dialer, `none` standing for the nil interface value. -/
def processEntries.chooseDialer (env : Env) : List LogLine × Except Halt (Option Dialer) :=
  match env.LookupEnv "http_proxy" with
  | none => ([], .ok (some .Direct))
  | some proxyServer =>
    match env.urlParse proxyServer with
    | .error _ =>
      -- `proxyURL` is nil; the error is logged and `proxy.FromURL` is called on it
      ([.invalidProxy none], .error .nilProxyURL)
    | .ok proxyURL =>
      match env.proxyFromURL proxyURL with
      | .error _ => ([], .ok none)
      | .ok d => ([], .ok (some d))

/-- Lines 79–88: the transport literal. -/
def processEntries.newTransport (insecureSkipVerify : Bool) : Transport :=
  { Dial := .netDialer (30 * Second) (30 * Second)
    InsecureSkipVerify := insecureSkipVerify
    TLSHandshakeTimeout := 10 * Second
    ResponseHeaderTimeout := 10 * Second
    ExpectContinueTimeout := 1 * Second }

/-- Lines 64–97: everything `processEntries` does before its loop. The result
is the log written and either a panic or the transport as the loop finds it. -/
def processEntries.setup (env : Env) (insecureSkipVerify : Bool) :
    List LogLine × Except Halt Transport :=
  match processEntries.chooseDialer env with
  | (logs, .error h) => (logs, .error h)
  | (logs, .ok dialer) =>
    let httpTransport := processEntries.newTransport insecureSkipVerify
    -- line 97: httpTransport.Dial = dialer.Dial
    match dialer with
    | none => (logs, .error .nilDialer)
    | some d => (logs, .ok { httpTransport with Dial := .ofDialer d })

/-! ## The worker (`processEntries`) -/

/-- The three channels `LoadTest` makes (lines 22, 24 and 25), named after the
local variables that hold them. -/
inductive ChanId where
  | results
  | stop
  | entries
deriving DecidableEq, Repr

/-- The arguments of one call `go processEntries(...)` (line 44). -/
structure WorkerArgs where
  harfile : String
  worker : Nat
  entries : ChanId
  results : ChanId
  ignoreHarCookies : Bool
  insecureSkipVerify : Bool
  stop : ChanId
deriving DecidableEq, Repr

/-- Where a worker stands. -/
inductive WorkerPc where
  /-- Started by the go statement, before line 64. -/
  | start
  /-- Blocked in the select of line 102. -/
  | select
  /-- Inside `httpClient.Do(req)` (line 115), `startTime` already taken. -/
  | doing (entry : Entry) (req : Request) (startTime : Int)
  /-- At a send `results <- tr`: line 132 (`viaContinue`, followed by
  `continue`) or line 153. -/
  | send (tr : TestResult) (viaContinue : Bool)
deriving DecidableEq, Repr

/-- One `processEntries` goroutine: its arguments and its local variables. The
jar records the cookies `processEntries` itself seeds (line 112). -/
structure Worker where
  args : WorkerArgs
  pc : WorkerPc
  iter : Int
  jar : List (URL × List String)
  transport : Option Transport
deriving DecidableEq, Repr

/-- Lines 103–104 and 155: the select takes `<-stop`; `break` leaves the
select statement, `iter++` runs and the `for` goes around. -/
def Worker.observeStop (w : Worker) : Worker :=
  { w with iter := wrap64 (w.iter + 1), pc := .select }

/-- Modelled from the spec: `check`, a helper of the repository outside
`load.go`. A request construction failure is fatal (the reference behaviour
halts on this error); without an error `check` returns. -/
def check (err : Option String) : Except Halt Unit :=
  match err with
  | some e => .error (.fatal e)
  | none => .ok ()

/-- Lines 105–114: the select takes `entry := <-entries`; the entry is
translated, `check(err)` is called, the cookies are seeded and `startTime` is
read from the clock. -/
def Worker.pull (env : Env) (w : Worker) (entry : Entry) (now : Int) : Except Halt Worker :=
  match env.EntryToRequest entry w.args.ignoreHarCookies with
  | (req, err) =>
    match check err with
    | .error h => .error h
    | .ok _ =>
      match req with
      | none => .error .nilRequest
      | some req =>
        .ok { w with jar := w.jar ++ [(req.URL, req.Cookies)], pc := .doing entry req now }

/-- Lines 116–151: `httpClient.Do` has returned `(resp, err)` and `endTime` is
read from the clock; the worker builds the `TestResult` it is about to send. -/
def Worker.doReturn (w : Worker) (entry : Entry) (req : Request) (startTime : Int)
    (resp : Option Response) (err : Option String) (now : Int) :
    List LogLine × Except Halt Worker :=
  let endTime := now
  let latency := latencyOf startTime endTime
  let method := req.Method
  match err with
  | some e =>
    let tr : TestResult :=
      { URL := req.URL.String, Status := 0, StartTime := startTime, EndTime := endTime,
        Latency := latency, Method := method, HarFile := w.args.harfile }
    ([.doError e, .doErrorEntry entry], .ok { w with pc := .send tr true })
  | none =>
    match resp with
    | none => ([], .error .nilResponse)
    | some r =>
      let tr : TestResult :=
        { URL := req.URL.String, Status := r.StatusCode, StartTime := startTime,
          EndTime := endTime, Latency := latency, Method := method, HarFile := w.args.harfile }
      ([.done w.args.worker w.iter entry.Request.URL r.StatusCode latency],
        .ok { w with pc := .send tr false })

/-- The send of line 132 or 153 has been accepted: after line 132 `continue`
goes back to the select, after line 153 `iter++` runs first. -/
def Worker.sent (w : Worker) (viaContinue : Bool) : Worker :=
  { w with pc := .select, iter := if viaContinue then w.iter else wrap64 (w.iter + 1) }

/-! ## The whole run (`LoadTest`, `wait` and the workers) -/

/-- Where `LoadTest` stands. -/
inductive MainPc where
  /-- Called, nothing executed yet. -/
  | entry
  /-- In the `for` of line 43 with loop variable `i`. -/
  | loop (i : Nat)
  /-- Blocked in the select of line 48. -/
  | blocked
  /-- Returned (the deferred `close(results)` has run). -/
  | returned
deriving DecidableEq, Repr

/-- Where the goroutine `wait` stands. -/
inductive WaitPc where
  | absent
  /-- Started by line 41, `time.Sleep` not yet entered. -/
  | spawned
  /-- Inside `time.Sleep(timeout)`, which returns no earlier than `wake`. -/
  | sleeping (wake : Int)
  /-- Past `close(stop)`. -/
  | done
deriving DecidableEq, Repr

/-- Modelled from the spec: `WritePoint`, the sink forwarder of the repository
outside `load.go`, consumes the result stream, like the loop of lines 34–38
that is started in its place when no metrics URL is given. Either receives
what is sent on `results`. -/
inductive Sink where
  | WritePoint (u : URL)
  | drain
deriving DecidableEq, Repr

/-- What the workers do on their channels, in the order it happens. -/
inductive Event where
  | observedStop (worker : Nat)
  | pulled (worker : Nat) (entry : Entry)
  | sent (worker : Nat) (tr : TestResult)
deriving DecidableEq, Repr

/-- The state of a run of `LoadTest`. -/
structure State where
  /-- The monotonic clock. -/
  now : Int
  main : MainPc
  /-- The channel `stop` has been closed. -/
  stopClosed : Bool
  /-- The channel `results` has been closed. -/
  resultsClosed : Bool
  /-- The content of the buffered channel `entries`. -/
  entries : List Entry
  /-- The goroutine `ReadStream` has been started. -/
  supply : Bool
  sink : Option Sink
  waiter : WaitPc
  /-- The `processEntries` goroutines in the order they were started. -/
  workers : List Worker
  /-- The results received from `results` by the sink. -/
  delivered : List TestResult
  halted : Option Halt
  log : List LogLine
  trace : List Event
deriving DecidableEq, Repr

/-- The state in which `LoadTest` is called at time `T`. -/
def init (T : Int) : State :=
  { now := T, main := .entry, stopClosed := false, resultsClosed := false, entries := [],
    supply := false, sink := none, waiter := .absent, workers := [], delivered := [],
    halted := none, log := [], trace := [] }

/-- The goroutine started by `go processEntries(harfile, i, entries, results,
ignoreHarCookies, insecureSkipVerify, stop)`. -/
def spawnWorker (p : Params) (i : Nat) : Worker :=
  { args :=
      { harfile := p.harfile, worker := i, entries := .entries, results := .results,
        ignoreHarCookies := p.ignoreHarCookies, insecureSkipVerify := p.insecureSkipVerify,
        stop := .stop }
    pc := .start, iter := 0, jar := [], transport := none }

/-- One scheduling choice, with the answer of the outside world where there is
one. -/
inductive Action where
  /-- The clock advances by `d` nanoseconds. -/
  | tick (d : Nat)
  /-- The goroutine of `LoadTest` runs up to its next go statement, loop test
  or blocking point. -/
  | main
  /-- The goroutine `wait` enters `time.Sleep`. -/
  | waitSleep
  /-- The goroutine `wait` leaves `time.Sleep` and closes `stop`. -/
  | waitClose
  /-- The entry supply puts an entry on `entries`. -/
  | supply (e : Entry)
  /-- Worker `i` runs lines 64–97. -/
  | setup (i : Nat)
  /-- The select of worker `i` takes `<-stop`. -/
  | observeStop (i : Nat)
  /-- The select of worker `i` takes `<-entries`. -/
  | pull (i : Nat)
  /-- The call `httpClient.Do` of worker `i` returns `(resp, err)`. -/
  | doReturn (i : Nat) (resp : Option Response) (err : Option String)
  /-- Worker `i` executes its send on `results`. -/
  | send (i : Nat)
deriving DecidableEq, Repr

/-- Lines 20–55, one piece at a time. -/
def LoadTest.step (env : Env) (p : Params) (s : State) : Option State :=
  match s.main with
  | .entry =>
    if makechanPanics env p.workers then
      some { s with halted := some .makechan, log := s.log ++ [.starting p.workers p.timeout] }
    else
      some { s with
        main := .loop 0
        supply := true
        sink := some (match p.u with | some v => .WritePoint v | none => .drain)
        waiter := .spawned
        log := s.log ++ [.starting p.workers p.timeout] }
  | .loop i =>
    if (i : Int) < p.workers then
      some { s with main := .loop (i + 1), workers := s.workers ++ [spawnWorker p i] }
    else
      some { s with main := .blocked }
  | .blocked =>
    if s.stopClosed then
      some { s with main := .returned, resultsClosed := true, log := s.log ++ [.elapsed p.timeout] }
    else none
  | .returned => none

/-- Line 59: `time.Sleep(timeout)` is entered; it returns once `timeout` has
elapsed (at once when `timeout` is not positive). -/
def wait.sleep (p : Params) (s : State) : Option State :=
  match s.waiter with
  | .spawned => some { s with waiter := .sleeping (s.now + p.timeout) }
  | _ => none

/-- Lines 59–60: `time.Sleep` returns and `close(stop)` runs. -/
def wait.close (s : State) : Option State :=
  match s.waiter with
  | .sleeping wake =>
    if wake ≤ s.now then some { s with waiter := .done, stopClosed := true } else none
  | _ => none

/-- Modelled from the spec: `ReadStream`, the entry supply, is not part of
`load.go`. It writes entries into the bounded queue, blocks while the queue is
full (capacity = worker count) and never touches the cancellation signal. -/
def stepSupply (p : Params) (s : State) (e : Entry) : Option State :=
  if s.supply = true ∧ (s.entries.length : Int) < p.workers then
    some { s with entries := s.entries ++ [e] }
  else none

/-- Worker `i` runs its set-up. -/
def stepSetup (env : Env) (s : State) (i : Nat) : Option State :=
  match s.workers[i]? with
  | none => none
  | some w =>
    match w.pc with
    | .start =>
      match processEntries.setup env w.args.insecureSkipVerify with
      | (logs, .error h) => some { s with halted := some h, log := s.log ++ logs }
      | (logs, .ok t) =>
        some { s with
          workers := s.workers.set i { w with pc := .select, transport := some t }
          log := s.log ++ logs }
    | _ => none

/-- The select of worker `i` takes the case `<-stop`, ready once `stop` is
closed. -/
def stepObserveStop (s : State) (i : Nat) : Option State :=
  match s.workers[i]? with
  | none => none
  | some w =>
    match w.pc with
    | .select =>
      if s.stopClosed then
        some { s with
          workers := s.workers.set i w.observeStop
          trace := s.trace ++ [.observedStop w.args.worker] }
      else none
    | _ => none

/-- The select of worker `i` takes the case `entry := <-entries`, ready when
the queue holds an entry. -/
def stepPull (env : Env) (s : State) (i : Nat) : Option State :=
  match s.workers[i]? with
  | none => none
  | some w =>
    match w.pc with
    | .select =>
      match s.entries with
      | [] => none
      | entry :: rest =>
        match w.pull env entry s.now with
        | .error h =>
          some { s with
            entries := rest, halted := some h
            trace := s.trace ++ [.pulled w.args.worker entry] }
        | .ok w1 =>
          some { s with
            entries := rest, workers := s.workers.set i w1
            trace := s.trace ++ [.pulled w.args.worker entry] }
    | _ => none

/-- The call `httpClient.Do` of worker `i` returns. -/
def stepDoReturn (s : State) (i : Nat) (resp : Option Response) (err : Option String) :
    Option State :=
  match s.workers[i]? with
  | none => none
  | some w =>
    match w.pc with
    | .doing entry req startTime =>
      match w.doReturn entry req startTime resp err s.now with
      | (logs, .error h) => some { s with halted := some h, log := s.log ++ logs }
      | (logs, .ok w1) => some { s with workers := s.workers.set i w1, log := s.log ++ logs }
    | _ => none

/-- Worker `i` executes `results <- tr`: a send on the closed channel panics,
a send on the open channel is received by the sink. -/
def stepSend (s : State) (i : Nat) : Option State :=
  match s.workers[i]? with
  | none => none
  | some w =>
    match w.pc with
    | .send tr viaContinue =>
      if s.resultsClosed then some { s with halted := some (.sendOnClosed tr) }
      else if s.sink.isSome then
        some { s with
          workers := s.workers.set i (w.sent viaContinue)
          delivered := s.delivered ++ [tr]
          trace := s.trace ++ [.sent w.args.worker tr] }
      else none
    | _ => none

/-- The effect of one scheduling choice; `none` when the choice is not enabled
(the goroutine is blocked or absent, or the process has stopped). -/
def step (env : Env) (p : Params) (s : State) (a : Action) : Option State :=
  match s.halted with
  | some _ => none
  | none =>
    match a with
    | .tick d => some { s with now := s.now + d }
    | .main => LoadTest.step env p s
    | .waitSleep => wait.sleep p s
    | .waitClose => wait.close s
    | .supply e => stepSupply p s e
    | .setup i => stepSetup env s i
    | .observeStop i => stepObserveStop s i
    | .pull i => stepPull env s i
    | .doReturn i resp err => stepDoReturn s i resp err
    | .send i => stepSend s i

/-- The state a schedule leads to, `none` when one of its choices is not
enabled. -/
def run (env : Env) (p : Params) : State → List Action → Option State
  | s, [] => some s
  | s, a :: rest =>
    match step env p s a with
    | none => none
    | some s1 => run env p s1 rest

/-! ## Invariant of a run and sample inputs -/

/-- The number of workers `LoadTest` has started when it stands at a given
point. -/
def started (p : Params) : MainPc → Nat
  | .entry => 0
  | .loop i => i
  | .blocked => p.workers.toNat
  | .returned => p.workers.toNat

/-- What holds in every state of a run of `LoadTest` called at time `T`. -/
structure Inv (p : Params) (T : Int) (s : State) : Prop where
  clock : T ≤ s.now
  sleeping : ∀ wake, s.waiter = .sleeping wake → T + p.timeout ≤ wake
  fired : s.stopClosed = true → s.waiter = .done ∧ T + p.timeout ≤ s.now
  returned : s.main = .returned → s.stopClosed = true
  closed : s.resultsClosed = true → s.main = .returned
  sink : s.main ≠ .entry → s.sink.isSome = true
  loop : ∀ i, s.main = .loop i → (i : Int) ≤ p.workers
  nonneg : s.main ≠ .entry → 0 ≤ p.workers
  absent : s.main = .entry → s.waiter = .absent
  args : s.workers.map Worker.args =
    (List.range (started p s.main)).map (fun i => (spawnWorker p i).args)

/-- The part of the state the invariant reads. -/
def core (s : State) : Int × MainPc × Bool × Bool × WaitPc × Option Sink × List WorkerArgs :=
  (s.now, s.main, s.stopClosed, s.resultsClosed, s.waiter, s.sink, s.workers.map Worker.args)

/-- Whether an event is worker `k` taking an entry. -/
def Event.isPulledBy (k : Nat) : Event → Bool
  | .pulled w _ => w == k
  | _ => false

/-- Whether an event is worker `k` having a result accepted. -/
def Event.isSentBy (k : Nat) : Event → Bool
  | .sent w _ => w == k
  | _ => false

/-- The number of entries worker `k` has taken. -/
def pulledBy (k : Nat) (tr : List Event) : Nat := tr.countP (Event.isPulledBy k)

/-- The number of results of worker `k` that were accepted. -/
def sentBy (k : Nat) (tr : List Event) : Nat := tr.countP (Event.isSentBy k)

/-- Whether in a trace no worker takes an entry or has a result accepted after
it has observed the closed `stop`. -/
def quietAfterStop : List Event → Bool
  | [] => true
  | .observedStop w :: rest =>
    rest.all (fun e => !(e.isPulledBy w || e.isSentBy w)) && quietAfterStop rest
  | _ :: rest => quietAfterStop rest

/-- One when the worker holds an entry whose result it has not sent yet. -/
def WorkerPc.inProgress : WorkerPc → Nat
  | .doing _ _ _ => 1
  | .send _ _ => 1
  | _ => 0

/-- Every worker has sent one result for each entry it took, the entry in
progress apart; goroutines not started have done nothing. -/
def Balanced (ws : List Worker) (tr : List Event) : Prop :=
  (∀ i w, ws[i]? = some w → sentBy i tr + w.pc.inProgress = pulledBy i tr) ∧
  (∀ k, ws.length ≤ k → pulledBy k tr = 0 ∧ sentBy k tr = 0)

/-- The worker whose move an action is. -/
def Action.worker : Action → Option Nat
  | .setup i => some i
  | .observeStop i => some i
  | .pull i => some i
  | .doReturn i _ _ => some i
  | .send i => some i
  | _ => none

/-- The moves a worker can make from where it stands: the set-up from the
start, a case of the select from the select, the return of `httpClient.Do`
from inside it, the send from a send statement. -/
def WorkerPc.allows : WorkerPc → Action → Bool
  | .start, .setup _ => true
  | .select, .observeStop _ => true
  | .select, .pull _ => true
  | .doing _ _ _, .doReturn _ _ _ => true
  | .send _ _, .send _ => true
  | _, _ => false

/-- Whether none of the actions of a schedule is a move of worker `i`. -/
def othersOnly (i : Nat) (acts : List Action) : Bool :=
  acts.all (fun a => a.worker != some i)

/-- What a move of another goroutine leaves alone for the worker at index
`i`: its record and the count of its events. -/
def Framed (i : Nat) (w : Worker) (s s1 : State) : Prop :=
  s1.workers[i]? = some w ∧ sentBy i s1.trace = sentBy i s.trace ∧
    pulledBy i s1.trace = pulledBy i s.trace

/-- An environment without a proxy, in which every entry translates, on a
platform with the `maxAlloc` and `hchanSize` of linux/amd64; the element size
is the least a non-empty struct can have. -/
def demoEnv : Env :=
  { LookupEnv := fun _ => none
    urlParse := fun s => if s = ":" then .error "missing protocol scheme" else .ok ⟨s⟩
    proxyFromURL := fun u => .ok (.viaProxy u)
    EntryToRequest := fun e _ =>
      (some { Method := e.Request.Method, URL := ⟨e.Request.URL⟩, Cookies := [] }, none)
    entrySize := 1
    maxAlloc := 2 ^ 48
    hchanSize := 96 }

/-- The environment `demoEnv` with `http_proxy` set to `":"`, which `url.Parse`
rejects (missing protocol scheme). -/
def badProxyEnv : Env :=
  { demoEnv with LookupEnv := fun name => if name = "http_proxy" then some ":" else none }

/-- One worker, a timeout of five nanoseconds, no metrics sink. -/
def demoParams : Params :=
  { harfile := "a.har", workers := 1, timeout := 5, u := none, ignoreHarCookies := false,
    insecureSkipVerify := false }

/-- A recorded `GET`. -/
def demoEntry : Entry := ⟨⟨"GET", "http://x/a"⟩⟩

/-- The request `demoEnv` translates `demoEntry` to. -/
def demoRequest : Request := { Method := "GET", URL := ⟨"http://x/a"⟩, Cookies := [] }

/-- The schedule in which the only worker observes the closed `stop` and then
still takes an entry, executes it and sends its result. -/
def afterStopSchedule : List Action :=
  [.main, .main, .main, .setup 0, .supply demoEntry, .waitSleep, .tick 5, .waitClose,
    .observeStop 0, .pull 0, .tick 3000000, .doReturn 0 (some ⟨200⟩) none, .send 0]

/-- The result sent at the end of `afterStopSchedule`. -/
def afterStopResult : TestResult :=
  { URL := "http://x/a", Status := 200, StartTime := 5, EndTime := 3000005, Latency := 3,
    Method := "GET", HarFile := "a.har" }

/-- The schedule in which the deadline fires and `LoadTest` returns while the
request of the only worker is in flight. -/
def inFlightSchedule : List Action :=
  [.main, .main, .main, .setup 0, .supply demoEntry, .pull 0, .waitSleep, .tick 5, .waitClose,
    .main, .tick 3000000, .doReturn 0 (some ⟨200⟩) none, .send 0]

/-- The result the worker fails to send at the end of `inFlightSchedule`. -/
def inFlightResult : TestResult :=
  { URL := "http://x/a", Status := 200, StartTime := 0, EndTime := 3000005, Latency := 3,
    Method := "GET", HarFile := "a.har" }

/-- The schedule that brings the only worker to its send while `LoadTest` is
still blocked in its select. -/
def sendingSchedule : List Action :=
  [.main, .main, .main, .setup 0, .supply demoEntry, .pull 0, .tick 3000005,
    .doReturn 0 (some ⟨200⟩) none]

/-- The state `sendingSchedule` leads to. -/
def demoSending : State :=
  (run demoEnv demoParams (init 0) sendingSchedule).getD (init 0)

/-- The worker of `demoSending`. -/
def demoSendingWorker : Worker :=
  (demoSending.workers[0]?).getD (spawnWorker demoParams 0)

/-- The schedule in which `LoadTest` starts everything, the timeout elapses
and `LoadTest` returns. -/
def returningSchedule : List Action :=
  [.main, .main, .main, .waitSleep, .tick 5, .waitClose, .main]

/-- The state `returningSchedule` leads to when `LoadTest` is called at time
`100`. -/
def demoReturned : State :=
  (run demoEnv demoParams (init 100) returningSchedule).getD (init 100)

/-- The schedule that leaves the only worker inside `httpClient.Do` with one
more entry waiting in the queue. -/
def inDoSchedule : List Action :=
  [.main, .main, .main, .setup 0, .supply demoEntry, .pull 0, .supply demoEntry, .tick 7]

/-- The state `inDoSchedule` leads to. -/
def demoInDo : State :=
  (run demoEnv demoParams (init 0) inDoSchedule).getD (init 0)

/-- The worker of `demoInDo`. -/
def demoInDoWorker : Worker :=
  (demoInDo.workers[0]?).getD (spawnWorker demoParams 0)

/-- The transport a worker of `demoEnv` ends its set-up with when asked to skip
certificate verification. -/
def demoTransport : Transport :=
  { Dial := .ofDialer .Direct, InsecureSkipVerify := true,
    TLSHandshakeTimeout := 10000000000, ResponseHeaderTimeout := 10000000000,
    ExpectContinueTimeout := 1000000000 }

/-- The schedule that leaves the only worker at its select with one entry in
the queue. -/
def queuedSchedule : List Action := [.main, .main, .main, .setup 0, .supply demoEntry]

/-- The state `queuedSchedule` leads to. -/
def demoQueued : State :=
  (run demoEnv demoParams (init 0) queuedSchedule).getD (init 0)

/-- The worker of `demoQueued`. -/
def demoQueuedWorker : Worker :=
  (demoQueued.workers[0]?).getD (spawnWorker demoParams 0)

/-- The state `demoQueued` after the worker has taken the entry. -/
def demoPulled : State :=
  (run demoEnv demoParams (init 0) (queuedSchedule ++ [.pull 0])).getD (init 0)

/-- The state `demoPulled` after the wait goroutine has entered its sleep and
3000005 ns have passed. -/
def demoPulledLater : State :=
  (run demoEnv demoParams (init 0)
    (queuedSchedule ++ [.pull 0, .waitSleep, .tick 3000005])).getD (init 0)

/-- The state `demoPulledLater` after `httpClient.Do` has returned status 200. -/
def demoAtSend : State :=
  (run demoEnv demoParams (init 0)
    (queuedSchedule ++
      [.pull 0, .waitSleep, .tick 3000005, .doReturn 0 (some ⟨200⟩) none])).getD (init 0)

/-- The state `demoAtSend` after the entry supply has queued another entry. -/
def demoAtSendLater : State :=
  (run demoEnv demoParams (init 0)
    (queuedSchedule ++
      [.pull 0, .waitSleep, .tick 3000005, .doReturn 0 (some ⟨200⟩) none,
        .supply demoEntry])).getD (init 0)

/-- The state `demoAtSendLater` after the worker's send. -/
def demoSent : State :=
  (run demoEnv demoParams (init 0)
    (queuedSchedule ++
      [.pull 0, .waitSleep, .tick 3000005, .doReturn 0 (some ⟨200⟩) none,
        .supply demoEntry, .send 0])).getD (init 0)

/-- The schedule in which the worker takes an entry and `httpClient.Do` returns
a response, but `LoadTest` returns before the worker sends. -/
def closedSendSchedule : List Action :=
  [.main, .main, .main, .setup 0, .supply demoEntry, .pull 0, .waitSleep, .tick 5,
    .waitClose, .doReturn 0 (some ⟨200⟩) none, .main, .send 0]

/-- The result the worker fails to send at the end of `closedSendSchedule`. -/
def closedSendResult : TestResult :=
  { URL := "http://x/a", Status := 200, StartTime := 0, EndTime := 5, Latency := 0,
    Method := "GET", HarFile := "a.har" }

/-- The schedule in which `LoadTest` returns while the worker is inside
`httpClient.Do`, which then returns an error; another entry waits in the
queue. -/
def errorClosedSchedule : List Action :=
  [.main, .main, .main, .setup 0, .supply demoEntry, .pull 0, .supply demoEntry, .waitSleep,
    .tick 5, .waitClose, .main, .doReturn 0 none (some "connection refused"), .send 0]

/-- The result the worker fails to send at the end of `errorClosedSchedule`. -/
def errorClosedResult : TestResult :=
  { URL := "http://x/a", Status := 0, StartTime := 0, EndTime := 5, Latency := 0,
    Method := "GET", HarFile := "a.har" }

/-- The state `demoInDo` after `httpClient.Do` has returned an error. -/
def demoErrAtSend : State :=
  (run demoEnv demoParams (init 0)
    (inDoSchedule ++ [.doReturn 0 none (some "connection refused")])).getD (init 0)

/-- The state `demoErrAtSend` after the wait goroutine has entered its sleep. -/
def demoErrAtSendLater : State :=
  (run demoEnv demoParams (init 0)
    (inDoSchedule ++ [.doReturn 0 none (some "connection refused"), .waitSleep])).getD (init 0)

/-- The state `demoErrAtSendLater` after the worker's send. -/
def demoErrSent : State :=
  (run demoEnv demoParams (init 0)
    (inDoSchedule ++
      [.doReturn 0 none (some "connection refused"), .waitSleep, .send 0])).getD (init 0)

/-- The state `demoErrSent` one nanosecond later. -/
def demoErrSentLater : State :=
  (run demoEnv demoParams (init 0)
    (inDoSchedule ++
      [.doReturn 0 none (some "connection refused"), .waitSleep, .send 0,
        .tick 1])).getD (init 0)

/-- Replacing a worker by one with the same arguments leaves the list of
arguments as it is. -/
theorem map_args_set {l : List Worker} {i : Nat} {w w1 : Worker} (h : l[i]? = some w)
    (ha : w1.args = w.args) : (l.set i w1).map Worker.args = l.map Worker.args := by
  induction l generalizing i with
  | nil => simp
  | cons x xs ih =>
    cases i with
    | zero =>
      simp at h
      simp [ha, h]
    | succ j =>
      simp at h
      simp [ih h]

/-- The invariant holds when `LoadTest` is called. -/
theorem init_inv (p : Params) (T : Int) : Inv p T (init T) := by
  constructor <;> simp [init, started]

/-- The invariant only reads `core`. -/
theorem inv_of_core {p : Params} {T : Int} {s s1 : State} (h : core s1 = core s)
    (hi : Inv p T s) : Inv p T s1 := by
  simp only [core, Prod.mk.injEq] at h
  obtain ⟨h1, h2, h3, h4, h5, h6, h7⟩ := h
  constructor
  · rw [h1]; exact hi.clock
  · rw [h5]; exact hi.sleeping
  · rw [h3, h5, h1]; exact hi.fired
  · rw [h2, h3]; exact hi.returned
  · rw [h2, h4]; exact hi.closed
  · rw [h2, h6]; exact hi.sink
  · rw [h2]; exact hi.loop
  · rw [h2]; exact hi.nonneg
  · rw [h2, h5]; exact hi.absent
  · rw [h2, h7]; exact hi.args

/-- The set-up of a worker leaves `core` alone. -/
theorem stepSetup_core {env : Env} {s s1 : State} {i : Nat} (h : stepSetup env s i = some s1) :
    core s1 = core s := by
  unfold stepSetup at h
  split at h
  · simp at h
  · rename_i w hw
    split at h
    · split at h
      · simp at h; subst h; rfl
      · simp at h; subst h
        simp [core, map_args_set hw]
    · simp at h

/-- Observing `stop` leaves `core` alone. -/
theorem stepObserveStop_core {s s1 : State} {i : Nat} (h : stepObserveStop s i = some s1) :
    core s1 = core s := by
  unfold stepObserveStop at h
  split at h
  · simp at h
  · rename_i w hw
    split at h
    · split at h
      · simp at h; subst h
        simp [core, map_args_set hw, Worker.observeStop]
      · simp at h
    · simp at h

/-- Taking an entry leaves the arguments of the worker alone. -/
theorem pull_args {env : Env} {w w1 : Worker} {entry : Entry} {now : Int}
    (h : w.pull env entry now = .ok w1) : w1.args = w.args := by
  unfold Worker.pull at h
  rcases hr : env.EntryToRequest entry w.args.ignoreHarCookies with ⟨req, err⟩
  rw [hr] at h
  cases err with
  | some e => simp [check] at h
  | none =>
    cases req with
    | none => simp [check] at h
    | some q => simp [check] at h; subst h; rfl

/-- Taking an entry leaves `core` alone. -/
theorem stepPull_core {env : Env} {s s1 : State} {i : Nat} (h : stepPull env s i = some s1) :
    core s1 = core s := by
  unfold stepPull at h
  split at h
  · simp at h
  · rename_i w hw
    split at h
    · split at h
      · simp at h
      · split at h
        · simp at h; subst h; rfl
        · rename_i w1 hp
          simp at h; subst h
          simp [core, map_args_set hw (pull_args hp)]
    · simp at h

/-- The return of `httpClient.Do` leaves the arguments of the worker alone. -/
theorem doReturn_args {w w1 : Worker} {entry : Entry} {req : Request} {st now : Int}
    {resp : Option Response} {err : Option String}
    (h : (w.doReturn entry req st resp err now).2 = .ok w1) : w1.args = w.args := by
  unfold Worker.doReturn at h
  cases err with
  | some e => simp at h; subst h; rfl
  | none =>
    cases resp with
    | none => simp at h
    | some r => simp at h; subst h; rfl

/-- The return of `httpClient.Do` leaves `core` alone. -/
theorem stepDoReturn_core {s s1 : State} {i : Nat} {resp : Option Response}
    {err : Option String} (h : stepDoReturn s i resp err = some s1) : core s1 = core s := by
  unfold stepDoReturn at h
  split at h
  · simp at h
  · rename_i w hw
    split at h
    · split at h
      · simp at h; subst h; rfl
      · rename_i logs w1 hd
        simp at h; subst h
        have : w1.args = w.args := doReturn_args (by rw [hd])
        simp [core, map_args_set hw this]
    · simp at h

/-- A send on `results` leaves `core` alone. -/
theorem stepSend_core {s s1 : State} {i : Nat} (h : stepSend s i = some s1) :
    core s1 = core s := by
  unfold stepSend at h
  split at h
  · simp at h
  · rename_i w hw
    split at h
    · split at h
      · simp at h; subst h; rfl
      · split at h
        · simp at h; subst h
          simp [core, map_args_set hw, Worker.sent]
        · simp at h
    · simp at h

/-- The steps of `LoadTest` keep the invariant. -/
theorem LoadTest_step_inv {env : Env} {p : Params} {T : Int} {s s1 : State} (hi : Inv p T s)
    (h : LoadTest.step env p s = some s1) : Inv p T s1 := by
  unfold LoadTest.step at h
  split at h
  · rename_i hm
    have ha := hi.args
    rw [hm] at ha
    split at h
    · simp at h; subst h
      exact inv_of_core (by simp [core]) hi
    · rename_i hmk
      have hw : ¬ p.workers < 0 := by
        intro hlt
        apply hmk
        simp [makechanPanics, hlt]
      simp at h; subst h
      have hab := hi.absent hm
      constructor
      · exact hi.clock
      · intro wake hwk; simp at hwk
      · intro hc
        have := (hi.fired hc).1
        simp [hab] at this
      · intro hr; simp at hr
      · intro hc
        have := hi.closed hc
        simp [hm] at this
      · intro _; simp
      · intro i hl; simp at hl; subst hl; simpa using hw
      · intro _; simpa using hw
      · intro he; simp at he
      · simpa [started] using ha
  · rename_i i hm
    have ha := hi.args
    rw [hm] at ha
    have hl := hi.loop i hm
    have hn := hi.nonneg (by simp [hm])
    have hs := hi.sink (by simp [hm])
    split at h
    · rename_i hlt
      simp at h; subst h
      constructor
      · exact hi.clock
      · exact hi.sleeping
      · exact hi.fired
      · intro hr; simp at hr
      · intro hc; have := hi.closed hc; simp [hm] at this
      · intro _; exact hs
      · intro j hj; simp at hj; subst hj; push_cast; omega
      · intro _; exact hn
      · intro he; simp at he
      · simp only [List.map_append, ha, started, List.range_succ, List.map_cons, List.map_nil]
    · rename_i hlt
      simp at h; subst h
      have hw : p.workers.toNat = i := by omega
      constructor
      · exact hi.clock
      · exact hi.sleeping
      · exact hi.fired
      · intro hr; simp at hr
      · intro hc; have := hi.closed hc; simp [hm] at this
      · intro _; exact hs
      · intro j hj; simp at hj
      · intro _; exact hn
      · intro he; simp at he
      · simpa [started, hw] using ha
  · rename_i hm
    have ha := hi.args
    rw [hm] at ha
    split at h
    · rename_i hst
      simp at h; subst h
      constructor
      · exact hi.clock
      · exact hi.sleeping
      · exact hi.fired
      · intro _; exact hst
      · intro _; rfl
      · intro _; exact hi.sink (by simp [hm])
      · intro j hj; simp at hj
      · intro _; exact hi.nonneg (by simp [hm])
      · intro he; simp at he
      · simpa [started] using ha
    · simp at h
  · simp at h

/-- Entering `time.Sleep` keeps the invariant. -/
theorem wait_sleep_inv {p : Params} {T : Int} {s s1 : State} (hi : Inv p T s)
    (h : wait.sleep p s = some s1) : Inv p T s1 := by
  unfold wait.sleep at h
  split at h
  · rename_i hw
    simp at h; subst h
    constructor
    · exact hi.clock
    · intro wake hwk
      simp at hwk; subst hwk
      have := hi.clock
      omega
    · intro hc
      have := (hi.fired hc).1
      simp [hw] at this
    · exact hi.returned
    · exact hi.closed
    · exact hi.sink
    · exact hi.loop
    · exact hi.nonneg
    · intro he
      have := hi.absent he
      simp [hw] at this
    · exact hi.args
  · simp at h

/-- Closing `stop` keeps the invariant. -/
theorem wait_close_inv {p : Params} {T : Int} {s s1 : State} (hi : Inv p T s)
    (h : wait.close s = some s1) : Inv p T s1 := by
  unfold wait.close at h
  split at h
  · rename_i wake hw
    split at h
    · rename_i hle
      simp at h; subst h
      have := hi.sleeping wake hw
      constructor
      · exact hi.clock
      · intro wk hwk; simp at hwk
      · intro _; exact ⟨rfl, by simp only; omega⟩
      · intro _; rfl
      · exact hi.closed
      · exact hi.sink
      · exact hi.loop
      · exact hi.nonneg
      · intro he
        have := hi.absent he
        simp [hw] at this
      · exact hi.args
    · simp at h
  · simp at h

/-- The entry supply leaves `core` alone. -/
theorem stepSupply_core {p : Params} {s s1 : State} {e : Entry}
    (h : stepSupply p s e = some s1) : core s1 = core s := by
  unfold stepSupply at h
  split at h
  · simp at h; subst h; rfl
  · simp at h

/-- The passing of time keeps the invariant. -/
theorem tick_inv {p : Params} {T : Int} {s : State} (hi : Inv p T s) (d : Nat) :
    Inv p T { s with now := s.now + d } := by
  constructor
  · have := hi.clock; simp only; omega
  · exact hi.sleeping
  · intro hc
    have := hi.fired hc
    exact ⟨this.1, by simp only; omega⟩
  · exact hi.returned
  · exact hi.closed
  · exact hi.sink
  · exact hi.loop
  · exact hi.nonneg
  · exact hi.absent
  · exact hi.args

/-- Every step keeps the invariant. -/
theorem step_inv {env : Env} {p : Params} {T : Int} {s s1 : State} {a : Action}
    (hi : Inv p T s) (h : step env p s a = some s1) : Inv p T s1 := by
  unfold step at h
  split at h
  · simp at h
  · cases a with
    | tick d => simp at h; subst h; exact tick_inv hi d
    | main => exact LoadTest_step_inv hi h
    | waitSleep => exact wait_sleep_inv hi h
    | waitClose => exact wait_close_inv hi h
    | supply e => exact inv_of_core (stepSupply_core h) hi
    | setup i => exact inv_of_core (stepSetup_core h) hi
    | observeStop i => exact inv_of_core (stepObserveStop_core h) hi
    | pull i => exact inv_of_core (stepPull_core h) hi
    | doReturn i resp err => exact inv_of_core (stepDoReturn_core h) hi
    | send i => exact inv_of_core (stepSend_core h) hi

/-- Every schedule keeps the invariant. -/
theorem run_inv {env : Env} {p : Params} {T : Int} {acts : List Action} {s s1 : State}
    (hi : Inv p T s) (h : run env p s acts = some s1) : Inv p T s1 := by
  induction acts generalizing s with
  | nil => simp [run] at h; subst h; exact hi
  | cons a rest ih =>
    unfold run at h
    split at h
    · simp at h
    · rename_i s2 hs
      exact ih (step_inv hi hs) h

/-- The invariant holds in every state of a run of `LoadTest`. -/
theorem reachable_inv {env : Env} {p : Params} {T : Int} {acts : List Action} {s : State}
    (h : run env p (init T) acts = some s) : Inv p T s :=
  run_inv (init_inv p T) h

/-- The steps of `LoadTest` do not touch `stop`. -/
theorem LoadTest_step_stop {env : Env} {p : Params} {s s1 : State}
    (h : LoadTest.step env p s = some s1) :
    s1.stopClosed = s.stopClosed := by
  unfold LoadTest.step at h
  split at h
  · split at h <;> (simp at h; subst h; rfl)
  · split at h <;> (simp at h; subst h; rfl)
  · split at h
    · simp at h; subst h; rfl
    · simp at h
  · simp at h

/-- Equal `core`, equal state of `stop`. -/
theorem core_stop {s s1 : State} (h : core s1 = core s) : s1.stopClosed = s.stopClosed := by
  simp only [core, Prod.mk.injEq] at h
  exact h.2.2.1

/-- The only step that fires the cancellation signal is the one in which
`wait` leaves `time.Sleep`. -/
theorem step_fires {env : Env} {p : Params} {s s1 : State} {a : Action}
    (h : step env p s a = some s1) (h0 : s.stopClosed = false) (h1 : s1.stopClosed = true) :
    a = .waitClose ∧ ∃ wake, s.waiter = .sleeping wake ∧ wake ≤ s.now := by
  unfold step at h
  split at h
  · simp at h
  · cases a with
    | tick d => simp at h; subst h; simp [h0] at h1
    | main => rw [LoadTest_step_stop h, h0] at h1; simp at h1
    | waitSleep =>
      replace h : wait.sleep p s = some s1 := h
      unfold wait.sleep at h
      split at h
      · simp at h; subst h; simp [h0] at h1
      · simp at h
    | waitClose =>
      refine ⟨rfl, ?_⟩
      replace h : wait.close s = some s1 := h
      unfold wait.close at h
      split at h
      · rename_i wake hw
        split at h
        · rename_i hle; exact ⟨wake, hw, hle⟩
        · simp at h
      · simp at h
    | supply e => rw [core_stop (stepSupply_core h), h0] at h1; simp at h1
    | setup i => rw [core_stop (stepSetup_core h), h0] at h1; simp at h1
    | observeStop i => rw [core_stop (stepObserveStop_core h), h0] at h1; simp at h1
    | pull i => rw [core_stop (stepPull_core h), h0] at h1; simp at h1
    | doReturn i resp err => rw [core_stop (stepDoReturn_core h), h0] at h1; simp at h1
    | send i => rw [core_stop (stepSend_core h), h0] at h1; simp at h1

/-- A step in a live process. -/
theorem step_live {env : Env} {p : Params} {s : State} (hh : s.halted = none) (a : Action) :
    step env p s a =
      match a with
      | .tick d => some { s with now := s.now + d }
      | .main => LoadTest.step env p s
      | .waitSleep => wait.sleep p s
      | .waitClose => wait.close s
      | .supply e => stepSupply p s e
      | .setup i => stepSetup env s i
      | .observeStop i => stepObserveStop s i
      | .pull i => stepPull env s i
      | .doReturn i resp err => stepDoReturn s i resp err
      | .send i => stepSend s i := by
  unfold step
  rw [hh]

/-- Reading the worker just written. -/
theorem getElem?_set_same {l : List Worker} {i : Nat} {w : Worker} (w1 : Worker)
    (h : l[i]? = some w) : (l.set i w1)[i]? = some w1 := by
  have hlt : i < l.length := by
    rcases Nat.lt_or_ge i l.length with h1 | h1
    · exact h1
    · rw [List.getElem?_eq_none h1] at h; simp at h
  simp [hlt]

/-- A run that has a worker has started its sink. -/
theorem sink_of_worker {p : Params} {T : Int} {s : State} (hi : Inv p T s) {i : Nat}
    {w : Worker} (hw : s.workers[i]? = some w) : s.sink.isSome = true := by
  apply hi.sink
  intro hm
  have ha := hi.args
  rw [hm] at ha
  simp [started] at ha
  rw [ha] at hw
  simp at hw

/-- Entries taken, over a trace in two parts. -/
theorem pulledBy_append (k : Nat) (a b : List Event) :
    pulledBy k (a ++ b) = pulledBy k a + pulledBy k b := by
  simp [pulledBy, List.countP_append]

/-- Results accepted, over a trace in two parts. -/
theorem sentBy_append (k : Nat) (a b : List Event) :
    sentBy k (a ++ b) = sentBy k a + sentBy k b := by
  simp [sentBy, List.countP_append]

/-- The worker at index `i` of a run is the one started with identity `i`. -/
theorem worker_id {p : Params} {T : Int} {s : State} (hi : Inv p T s) {i : Nat} {w : Worker}
    (hw : s.workers[i]? = some w) : w.args.worker = i := by
  have h1 : (s.workers.map Worker.args)[i]? = some w.args := by
    simp [hw]
  rw [hi.args] at h1
  simp only [List.getElem?_map] at h1
  cases h2 : (List.range (started p s.main))[i]? with
  | none => simp [h2] at h1
  | some j =>
    have h3 : j = i := by
      by_cases hlt : i < started p s.main
      · rw [List.getElem?_range hlt] at h2
        simpa using h2.symm
      · rw [List.getElem?_eq_none (by simpa using hlt)] at h2
        simp at h2
    subst h3
    simp [h2] at h1
    rw [← h1]
    rfl

/-- The balance survives a step of the worker at index `i` that appends
`evs`, when the events are its own and match its move. -/
theorem balanced_set {ws : List Worker} {tr evs : List Event} {i : Nat} {w w1 : Worker}
    (hb : Balanced ws tr) (hw : ws[i]? = some w)
    (hot : ∀ j, j ≠ i → pulledBy j evs = 0 ∧ sentBy j evs = 0)
    (hme : sentBy i evs + w1.pc.inProgress = pulledBy i evs + w.pc.inProgress) :
    Balanced (ws.set i w1) (tr ++ evs) := by
  have hlt : i < ws.length := by
    rcases Nat.lt_or_ge i ws.length with h1 | h1
    · exact h1
    · rw [List.getElem?_eq_none h1] at hw; simp at hw
  constructor
  · intro j x hj
    rw [pulledBy_append, sentBy_append]
    by_cases hji : j = i
    · subst hji
      rw [getElem?_set_same w1 hw] at hj
      simp only [Option.some.injEq] at hj
      subst hj
      have := hb.1 j w hw
      omega
    · rw [List.getElem?_set_ne (Ne.symm hji)] at hj
      have := hb.1 j x hj
      have := hot j hji
      omega
  · intro k hk
    rw [List.length_set] at hk
    rw [pulledBy_append, sentBy_append]
    have := hb.2 k hk
    have := hot k (by omega)
    omega

/-- A move of the worker at index `i` that appends no event and does not
change whether an entry is in progress keeps the balance. -/
theorem balanced_set_quiet {ws : List Worker} {tr : List Event} {i : Nat} {w w1 : Worker}
    (hb : Balanced ws tr) (hw : ws[i]? = some w)
    (hme : w1.pc.inProgress = w.pc.inProgress) : Balanced (ws.set i w1) tr := by
  have h := @balanced_set ws tr [] i w w1 hb hw (by intro j _; simp [pulledBy, sentBy])
    (by simp [pulledBy, sentBy, hme])
  simpa using h

/-- The set-up of a worker keeps the balance. -/
theorem stepSetup_bal {env : Env} {s s1 : State} {i : Nat}
    (hb : Balanced s.workers s.trace) (h : stepSetup env s i = some s1)
    (hl : s1.halted = none) : Balanced s1.workers s1.trace := by
  unfold stepSetup at h
  split at h
  · simp at h
  · rename_i w hw
    split at h
    · rename_i hpc
      split at h
      · simp at h; subst h; simp at hl
      · simp at h; subst h
        exact balanced_set_quiet hb hw (by rw [hpc]; rfl)
    · simp at h

/-- Observing `stop` keeps the balance. -/
theorem stepObserveStop_bal {s s1 : State} {i : Nat}
    (hb : Balanced s.workers s.trace) (h : stepObserveStop s i = some s1) :
    Balanced s1.workers s1.trace := by
  unfold stepObserveStop at h
  split at h
  · simp at h
  · rename_i w hw
    split at h
    · rename_i hpc
      split at h
      · simp at h; subst h
        have hw0 : w.pc.inProgress = 0 := by rw [hpc]; rfl
        have hw1 : w.observeStop.pc.inProgress = 0 := rfl
        exact balanced_set hb hw (by intro j _; simp [pulledBy, sentBy, Event.isPulledBy,
          Event.isSentBy]) (by simp [pulledBy, sentBy, Event.isPulledBy, Event.isSentBy, hw0,
          hw1])
      · simp at h
    · simp at h

/-- A worker that has taken an entry has it in progress. -/
theorem pull_pc {env : Env} {w w1 : Worker} {entry : Entry} {now : Int}
    (h : w.pull env entry now = .ok w1) : w1.pc.inProgress = 1 := by
  unfold Worker.pull at h
  rcases hr : env.EntryToRequest entry w.args.ignoreHarCookies with ⟨req, err⟩
  rw [hr] at h
  cases err with
  | some e => simp [check] at h
  | none =>
    cases req with
    | none => simp [check] at h
    | some q => simp [check] at h; subst h; rfl

/-- Taking an entry keeps the balance. -/
theorem stepPull_bal {env : Env} {p : Params} {T : Int} {s s1 : State} {i : Nat}
    (hi : Inv p T s) (hb : Balanced s.workers s.trace) (h : stepPull env s i = some s1)
    (hl : s1.halted = none) : Balanced s1.workers s1.trace := by
  unfold stepPull at h
  split at h
  · simp at h
  · rename_i w hw
    have hid := worker_id hi hw
    split at h
    · rename_i hpc
      split at h
      · simp at h
      · split at h
        · simp at h; subst h; simp at hl
        · rename_i w1 hp
          simp at h; subst h
          refine balanced_set hb hw ?_ ?_
          · intro j hj
            have : ¬ (i = j) := fun e => hj e.symm
            simp [pulledBy, sentBy, Event.isPulledBy, Event.isSentBy, hid, this]
          · have hw0 : w.pc.inProgress = 0 := by rw [hpc]; rfl
            simp [pulledBy, sentBy, Event.isPulledBy, Event.isSentBy, hid, hw0, pull_pc hp]
    · simp at h

/-- A worker past `httpClient.Do` still has its entry in progress. -/
theorem doReturn_pc {w w1 : Worker} {entry : Entry} {req : Request} {st now : Int}
    {resp : Option Response} {err : Option String}
    (h : (w.doReturn entry req st resp err now).2 = .ok w1) : w1.pc.inProgress = 1 := by
  unfold Worker.doReturn at h
  cases err with
  | some e => simp at h; subst h; rfl
  | none =>
    cases resp with
    | none => simp at h
    | some r => simp at h; subst h; rfl

/-- The return of `httpClient.Do` keeps the balance. -/
theorem stepDoReturn_bal {s s1 : State} {i : Nat} {resp : Option Response}
    {err : Option String} (hb : Balanced s.workers s.trace)
    (h : stepDoReturn s i resp err = some s1) (hl : s1.halted = none) :
    Balanced s1.workers s1.trace := by
  unfold stepDoReturn at h
  split at h
  · simp at h
  · rename_i w hw
    split at h
    · rename_i hpc
      split at h
      · simp at h; subst h; simp at hl
      · rename_i logs w1 hd
        simp at h; subst h
        have : w1.pc.inProgress = 1 := doReturn_pc (by rw [hd])
        exact balanced_set_quiet hb hw (by rw [this, hpc]; rfl)
    · simp at h

/-- An accepted send keeps the balance. -/
theorem stepSend_bal {p : Params} {T : Int} {s s1 : State} {i : Nat} (hi : Inv p T s)
    (hb : Balanced s.workers s.trace) (h : stepSend s i = some s1) (hl : s1.halted = none) :
    Balanced s1.workers s1.trace := by
  unfold stepSend at h
  split at h
  · simp at h
  · rename_i w hw
    have hid := worker_id hi hw
    split at h
    · rename_i hpc
      split at h
      · simp at h; subst h; simp at hl
      · split at h
        · simp at h; subst h
          refine balanced_set hb hw ?_ ?_
          · intro j hj
            have : ¬ (i = j) := fun e => hj e.symm
            simp [pulledBy, sentBy, Event.isPulledBy, Event.isSentBy, hid, this]
          · rename_i tr0 c0 _ _
            have hw0 : w.pc.inProgress = 1 := by rw [hpc]; rfl
            have hw1 : (w.sent c0).pc.inProgress = 0 := rfl
            simp [pulledBy, sentBy, Event.isPulledBy, Event.isSentBy, hid, hw0, hw1]
        · simp at h
    · simp at h

/-- The steps of `LoadTest` keep the balance. -/
theorem LoadTest_step_bal {env : Env} {p : Params} {s s1 : State}
    (hb : Balanced s.workers s.trace)
    (h : LoadTest.step env p s = some s1) : Balanced s1.workers s1.trace := by
  unfold LoadTest.step at h
  split at h
  · split at h <;> (simp at h; subst h; exact hb)
  · split at h
    · simp at h; subst h
      constructor
      · intro j x hj
        by_cases hlt : j < s.workers.length
        · rw [List.getElem?_append_left hlt] at hj
          exact hb.1 j x hj
        · have hge : s.workers.length ≤ j := by omega
          rw [List.getElem?_append_right hge] at hj
          have h0 := hb.2 j hge
          cases hk : j - s.workers.length with
          | zero =>
            rw [hk] at hj
            simp at hj
            subst hj
            simp [spawnWorker, WorkerPc.inProgress, h0.1, h0.2]
          | succ m =>
            rw [hk] at hj
            simp at hj
      · intro k hk
        simp at hk
        exact hb.2 k (by omega)
    · simp at h; subst h; exact hb
  · split at h
    · simp at h; subst h; exact hb
    · simp at h
  · simp at h

/-- Every step into a live state keeps the balance. -/
theorem step_bal {env : Env} {p : Params} {T : Int} {s s1 : State} {a : Action}
    (hi : Inv p T s) (hb : Balanced s.workers s.trace) (h : step env p s a = some s1)
    (hl : s1.halted = none) : Balanced s1.workers s1.trace := by
  unfold step at h
  split at h
  · simp at h
  · cases a with
    | tick d => simp at h; subst h; exact hb
    | main => exact LoadTest_step_bal hb h
    | waitSleep =>
      replace h : wait.sleep p s = some s1 := h
      unfold wait.sleep at h
      split at h
      · simp at h; subst h; exact hb
      · simp at h
    | waitClose =>
      replace h : wait.close s = some s1 := h
      unfold wait.close at h
      split at h
      · split at h
        · simp at h; subst h; exact hb
        · simp at h
      · simp at h
    | supply e =>
      replace h : stepSupply p s e = some s1 := h
      unfold stepSupply at h
      split at h
      · simp at h; subst h; exact hb
      · simp at h
    | setup i => exact stepSetup_bal hb h hl
    | observeStop i => exact stepObserveStop_bal hb h
    | pull i => exact stepPull_bal hi hb h hl
    | doReturn i resp err => exact stepDoReturn_bal hb h hl
    | send i => exact stepSend_bal hi hb h hl

/-- A state that is not halted comes from one that is not halted. -/
theorem step_halted {env : Env} {p : Params} {s s1 : State} {a : Action}
    (h : step env p s a = some s1) : s.halted = none := by
  unfold step at h
  split at h
  · simp at h
  · assumption

/-- Every schedule into a live state keeps the balance. -/
theorem run_bal {env : Env} {p : Params} {T : Int} {acts : List Action} {s s1 : State}
    (hi : Inv p T s) (hb : Balanced s.workers s.trace) (h : run env p s acts = some s1)
    (hl : s1.halted = none) : Balanced s1.workers s1.trace := by
  induction acts generalizing s with
  | nil => simp [run] at h; subst h; exact hb
  | cons a rest ih =>
    unfold run at h
    split at h
    · simp at h
    · rename_i s2 hs
      cases rest with
      | nil =>
        simp [run] at h; subst h
        exact step_bal hi hb hs hl
      | cons b more =>
        have hl2 : s2.halted = none := by
          unfold run at h
          split at h
          · simp at h
          · rename_i s3 hs3
            exact step_halted hs3
        exact ih (step_inv hi hs) (step_bal hi hb hs hl2) h

/-- The balance holds in every live state of a run of `LoadTest`. -/
theorem reachable_bal {env : Env} {p : Params} {T : Int} {acts : List Action} {s : State}
    (h : run env p (init T) acts = some s) (hl : s.halted = none) :
    Balanced s.workers s.trace :=
  run_bal (init_inv p T)
    ⟨by intro i w hw; simp [init] at hw, by intro k _; simp [init, pulledBy, sentBy]⟩ h hl

/-- A state frames itself. -/
theorem framed_refl {i : Nat} {w : Worker} {s : State} (hw : s.workers[i]? = some w) :
    Framed i w s s :=
  ⟨hw, rfl, rfl⟩

/-- A move of the worker at index `j` frames the worker at another index. -/
theorem framed_set {p : Params} {T : Int} {s : State} (hi : Inv p T s) {i j : Nat}
    {w wj : Worker} (hw : s.workers[i]? = some w) (hj : s.workers[j]? = some wj)
    (hne : j ≠ i) (x : Worker) (e : Event)
    (he : e = .observedStop wj.args.worker ∨ (∃ en, e = .pulled wj.args.worker en) ∨
      ∃ tr, e = .sent wj.args.worker tr) :
    (s.workers.set j x)[i]? = some w ∧ sentBy i (s.trace ++ [e]) = sentBy i s.trace ∧
      pulledBy i (s.trace ++ [e]) = pulledBy i s.trace := by
  have hid := worker_id hi hj
  have hji : ¬ (j = i) := hne
  refine ⟨by rw [List.getElem?_set_ne hne]; exact hw, ?_, ?_⟩
  · rw [sentBy_append]
    rcases he with he | ⟨en, he⟩ | ⟨tr, he⟩ <;>
      (subst he; simp [sentBy, Event.isSentBy, hid, hji])
  · rw [pulledBy_append]
    rcases he with he | ⟨en, he⟩ | ⟨tr, he⟩ <;>
      (subst he; simp [pulledBy, Event.isPulledBy, hid, hji])

/-- Every step that is not a move of the worker at index `i` frames it. -/
theorem step_frame {env : Env} {p : Params} {T : Int} {s s1 : State} {a : Action} {i : Nat}
    {w : Worker} (hi : Inv p T s) (h : step env p s a = some s1) (ha : a.worker ≠ some i)
    (hw : s.workers[i]? = some w) : Framed i w s s1 := by
  have hlive := step_halted h
  rw [step_live hlive] at h
  cases a with
  | tick d => simp at h; subst h; exact framed_refl hw
  | main =>
    replace h : LoadTest.step env p s = some s1 := h
    unfold LoadTest.step at h
    split at h
    · split at h <;> (simp at h; subst h; exact framed_refl hw)
    · split at h
      · simp at h; subst h
        refine ⟨?_, rfl, rfl⟩
        have hlt : i < s.workers.length := by
          rcases Nat.lt_or_ge i s.workers.length with h1 | h1
          · exact h1
          · rw [List.getElem?_eq_none h1] at hw; simp at hw
        show (s.workers ++ _)[i]? = some w
        rw [List.getElem?_append_left hlt]
        exact hw
      · simp at h; subst h; exact framed_refl hw
    · split at h
      · simp at h; subst h; exact framed_refl hw
      · simp at h
    · simp at h
  | waitSleep =>
    replace h : wait.sleep p s = some s1 := h
    unfold wait.sleep at h
    split at h
    · simp at h; subst h; exact framed_refl hw
    · simp at h
  | waitClose =>
    replace h : wait.close s = some s1 := h
    unfold wait.close at h
    split at h
    · split at h
      · simp at h; subst h; exact framed_refl hw
      · simp at h
    · simp at h
  | supply e =>
    replace h : stepSupply p s e = some s1 := h
    unfold stepSupply at h
    split at h
    · simp at h; subst h; exact framed_refl hw
    · simp at h
  | setup j =>
    have hne : j ≠ i := fun e => ha (by rw [e]; rfl)
    replace h : stepSetup env s j = some s1 := h
    unfold stepSetup at h
    split at h
    · simp at h
    · split at h
      · split at h
        · simp at h; subst h; exact framed_refl hw
        · simp at h; subst h
          exact ⟨by show (s.workers.set j _)[i]? = some w
                    rw [List.getElem?_set_ne hne]; exact hw, rfl, rfl⟩
      · simp at h
  | observeStop j =>
    have hne : j ≠ i := fun e => ha (by rw [e]; rfl)
    replace h : stepObserveStop s j = some s1 := h
    unfold stepObserveStop at h
    split at h
    · simp at h
    · rename_i wj hj
      split at h
      · split at h
        · simp at h; subst h
          exact framed_set hi hw hj hne _ _ (Or.inl rfl)
        · simp at h
      · simp at h
  | pull j =>
    have hne : j ≠ i := fun e => ha (by rw [e]; rfl)
    replace h : stepPull env s j = some s1 := h
    unfold stepPull at h
    split at h
    · simp at h
    · rename_i wj hj
      split at h
      · split at h
        · simp at h
        · rename_i entry rest _
          have hf := framed_set hi hw hj hne wj (.pulled wj.args.worker entry)
            (Or.inr (Or.inl ⟨entry, rfl⟩))
          split at h
          · simp at h; subst h
            exact ⟨hw, hf.2.1, hf.2.2⟩
          · rename_i w1 _
            simp at h; subst h
            exact ⟨by show (s.workers.set j _)[i]? = some w
                      rw [List.getElem?_set_ne hne]; exact hw, hf.2.1, hf.2.2⟩
      · simp at h
  | doReturn j resp err =>
    have hne : j ≠ i := fun e => ha (by rw [e]; rfl)
    replace h : stepDoReturn s j resp err = some s1 := h
    unfold stepDoReturn at h
    split at h
    · simp at h
    · split at h
      · split at h
        · simp at h; subst h; exact framed_refl hw
        · simp at h; subst h
          exact ⟨by show (s.workers.set j _)[i]? = some w
                    rw [List.getElem?_set_ne hne]; exact hw, rfl, rfl⟩
      · simp at h
  | send j =>
    have hne : j ≠ i := fun e => ha (by rw [e]; rfl)
    replace h : stepSend s j = some s1 := h
    unfold stepSend at h
    split at h
    · simp at h
    · rename_i wj hj
      split at h
      · split at h
        · simp at h; subst h; exact framed_refl hw
        · split at h
          · simp at h; subst h
            exact framed_set hi hw hj hne _ _ (Or.inr (Or.inr ⟨_, rfl⟩))
          · simp at h
      · simp at h

/-- Every schedule without a move of the worker at index `i` frames it, and
keeps the invariant. -/
theorem run_frame {env : Env} {p : Params} {T : Int} {acts : List Action} {s s1 : State}
    {i : Nat} {w : Worker} (hi : Inv p T s) (h : run env p s acts = some s1)
    (ha : othersOnly i acts = true) (hw : s.workers[i]? = some w) :
    Inv p T s1 ∧ Framed i w s s1 := by
  induction acts generalizing s with
  | nil => simp [run] at h; subst h; exact ⟨hi, framed_refl hw⟩
  | cons a rest ih =>
    unfold run at h
    split at h
    · simp at h
    · rename_i s2 hs
      simp only [othersOnly, List.all_cons, Bool.and_eq_true, bne_iff_ne, ne_eq] at ha
      have hf := step_frame hi hs ha.1 hw
      obtain ⟨hi1, hf1⟩ := ih (step_inv hi hs) h (by simpa [othersOnly] using ha.2) hf.1
      exact ⟨hi1, hf1.1, by rw [hf1.2.1, hf.2.1], by rw [hf1.2.2, hf.2.2]⟩

/-- A step that is a move of the worker at index `j` is one its control point
allows. -/
theorem own_move {env : Env} {p : Params} {s s1 : State} {a : Action} {j : Nat} {wj : Worker}
    (h : step env p s a = some s1) (ha : a.worker = some j) (hj : s.workers[j]? = some wj) :
    wj.pc.allows a = true := by
  have hlive := step_halted h
  rw [step_live hlive] at h
  cases a with
  | tick d => simp [Action.worker] at ha
  | main => simp [Action.worker] at ha
  | waitSleep => simp [Action.worker] at ha
  | waitClose => simp [Action.worker] at ha
  | supply e => simp [Action.worker] at ha
  | setup k =>
    simp only [Action.worker, Option.some.injEq] at ha
    subst ha
    replace h : stepSetup env s k = some s1 := h
    unfold stepSetup at h
    rw [hj] at h
    cases hpc : wj.pc <;> simp [hpc] at h
    rfl
  | observeStop k =>
    simp only [Action.worker, Option.some.injEq] at ha
    subst ha
    replace h : stepObserveStop s k = some s1 := h
    unfold stepObserveStop at h
    rw [hj] at h
    cases hpc : wj.pc <;> simp [hpc] at h
    rfl
  | pull k =>
    simp only [Action.worker, Option.some.injEq] at ha
    subst ha
    replace h : stepPull env s k = some s1 := h
    unfold stepPull at h
    rw [hj] at h
    cases hpc : wj.pc <;> simp [hpc] at h
    rfl
  | doReturn k resp err =>
    simp only [Action.worker, Option.some.injEq] at ha
    subst ha
    replace h : stepDoReturn s k resp err = some s1 := h
    unfold stepDoReturn at h
    rw [hj] at h
    cases hpc : wj.pc <;> simp [hpc] at h
    rfl
  | send k =>
    simp only [Action.worker, Option.some.injEq] at ha
    subst ha
    replace h : stepSend s k = some s1 := h
    unfold stepSend at h
    rw [hj] at h
    cases hpc : wj.pc <;> simp [hpc] at h
    rfl

/-- The select of a live worker with a translatable entry at the head of the
queue can take that entry. -/
theorem pull_enabled (env : Env) (p : Params) {s : State} {i : Nat} {w : Worker}
    {entry : Entry} {rest : List Entry} {req : Request} (hlive : s.halted = none)
    (hw : s.workers[i]? = some w) (hsel : w.pc = .select) (hq : s.entries = entry :: rest)
    (hreq : env.EntryToRequest entry w.args.ignoreHarCookies = (some req, none)) :
    step env p s (.pull i) =
      some { s with
        entries := rest
        workers := s.workers.set i
          { w with jar := w.jar ++ [(req.URL, req.Cookies)], pc := .doing entry req s.now }
        trace := s.trace ++ [.pulled w.args.worker entry] } := by
  rw [step_live hlive]
  simp only [stepPull, hw, hsel, hq, Worker.pull, hreq, check]

/-- The result a worker builds when `httpClient.Do` returns `(resp, err)` with
an error or a response, and whether `continue` follows its send. -/
theorem doReturn_enabled (env : Env) (p : Params) {s : State} {i : Nat} {w : Worker}
    {entry : Entry} {req : Request} {startTime : Int} (resp : Option Response)
    (err : Option String) (hlive : s.halted = none) (hw : s.workers[i]? = some w)
    (hpc : w.pc = .doing entry req startTime) (hdo : err.isSome = true ∨ resp.isSome = true) :
    ∃ tr c logs, step env p s (.doReturn i resp err) =
        some { s with
          workers := s.workers.set i { w with pc := .send tr c }, log := s.log ++ logs } ∧
      (err.isSome = true → tr.Status = 0 ∧ c = true) := by
  rw [step_live hlive]
  cases err with
  | some e =>
    let tr : TestResult :=
      { URL := req.URL.String, Status := 0, StartTime := startTime, EndTime := s.now,
        Latency := latencyOf startTime s.now, Method := req.Method,
        HarFile := w.args.harfile }
    refine ⟨tr, true, [.doError e, .doErrorEntry entry], ?_, fun _ => ⟨rfl, rfl⟩⟩
    simp only [stepDoReturn, hw, hpc, Worker.doReturn, tr]
  | none =>
    cases resp with
    | none => simp at hdo
    | some r =>
      let tr : TestResult :=
        { URL := req.URL.String, Status := r.StatusCode, StartTime := startTime,
          EndTime := s.now, Latency := latencyOf startTime s.now, Method := req.Method,
          HarFile := w.args.harfile }
      refine ⟨tr, false,
        [.done w.args.worker w.iter entry.Request.URL r.StatusCode (latencyOf startTime s.now)],
        ?_, fun h => by simp at h⟩
      simp only [stepDoReturn, hw, hpc, Worker.doReturn, tr]

/-- The send of a live worker on the open `results` is accepted. -/
theorem send_enabled (env : Env) (p : Params) {s : State} {i : Nat} {w : Worker}
    {tr : TestResult} {c : Bool} (hlive : s.halted = none) (hw : s.workers[i]? = some w)
    (hpc : w.pc = .send tr c) (hopen : s.resultsClosed = false)
    (hsink : s.sink.isSome = true) :
    step env p s (.send i) =
      some { s with
        workers := s.workers.set i (w.sent c)
        delivered := s.delivered ++ [tr]
        trace := s.trace ++ [.sent w.args.worker tr] } := by
  rw [step_live hlive]
  simp [stepSend, hw, hpc, hopen, hsink]

/-- In a run, `results` is open as long as `LoadTest` has not returned. -/
theorem open_of_not_returned {p : Params} {T : Int} {s : State} (hi : Inv p T s)
    (hm : s.main ≠ .returned) : s.resultsClosed = false := by
  cases h : s.resultsClosed with
  | false => rfl
  | true => exact absurd (hi.closed h) hm

/-- The select of a live worker can take `<-stop` once `stop` is closed. -/
theorem observeStop_enabled (env : Env) (p : Params) {s : State} {i : Nat} {w : Worker}
    (hlive : s.halted = none) (hw : s.workers[i]? = some w) (hsel : w.pc = .select)
    (hstop : s.stopClosed = true) :
    step env p s (.observeStop i) =
      some { s with
        workers := s.workers.set i w.observeStop
        trace := s.trace ++ [.observedStop w.args.worker] } := by
  rw [step_live hlive]
  simp [stepObserveStop, hw, hsel, hstop]

/-! ## The claims -/

/-- C1 (the code departs from the claim): after the worker's select has
observed the closed `stop`, the worker still pulls an entry from the queue and
sends a further `TestResult`; it stands at its select again afterwards. -/
theorem processEntries_continues_after_stop :
    (run demoEnv demoParams (init 0) afterStopSchedule).map
        (fun s => (s.trace, s.delivered, s.workers.map Worker.pc, s.halted)) =
      some ([.observedStop 0, .pulled 0 demoEntry, .sent 0 afterStopResult],
        [afterStopResult], [.select], none) ∧
    (run demoEnv demoParams (init 0) afterStopSchedule).map
        (fun s => quietAfterStop s.trace) = some false := by
  decide

/-- C2 (the claim as stated fails): the worker takes an entry whose translation
succeeds and `httpClient.Do` returns a response, but `LoadTest` has returned
and closed `results` before the worker's send: for the one entry taken, no
`TestResult` is sent. -/
theorem entry_without_result_after_return :
    (run demoEnv demoParams (init 0) closedSendSchedule).map
        (fun s => (pulledBy 0 s.trace, sentBy 0 s.trace, s.delivered, s.halted)) =
      some (1, 0, [], some (.sendOnClosed closedSendResult)) := by
  decide

/-- C2 (amended): in every live state of a run, every worker has had exactly
one `TestResult` accepted for each entry it took, the entry in progress apart
(never two); a worker inside `httpClient.Do` can only move by the return of
that call, a worker at a send statement only by that send. And from every live
state in which a worker stands at its select
with an entry at the head of the queue whose translation succeeds: the worker
takes the entry; whatever the other goroutines do meanwhile, while the process
is alive `httpClient.Do` returning an error or a response takes the worker to
one send statement, with no result sent so far; and whatever the others do
then, if the process is alive and `LoadTest` has not returned when the worker
sends, that one result is delivered, the worker is back at the select, and
since the entry was taken it has sent exactly one result. -/
theorem processEntries_sends_exactly_one_result (env : Env) (p : Params) (T : Int)
    (acts : List Action) (s : State) (i : Nat) (w : Worker) (entry : Entry)
    (rest : List Entry) (req : Request)
    (hrun : run env p (init T) acts = some s) (hlive : s.halted = none)
    (hw : s.workers[i]? = some w) (hsel : w.pc = .select) (hq : s.entries = entry :: rest)
    (hreq : env.EntryToRequest entry w.args.ignoreHarCookies = (some req, none)) :
    (∀ acts0 s0 j wj, run env p (init T) acts0 = some s0 → s0.halted = none →
      s0.workers[j]? = some wj →
      sentBy j s0.trace + wj.pc.inProgress = pulledBy j s0.trace) ∧
    (∀ s0 j wj a sx, step env p s0 a = some sx → a.worker = some j →
      s0.workers[j]? = some wj → wj.pc.allows a = true) ∧
    ∃ s1 w1, step env p s (.pull i) = some s1 ∧ s1.halted = none ∧
      s1.workers[i]? = some w1 ∧ w1.pc = .doing entry req s.now ∧
      pulledBy i s1.trace = pulledBy i s.trace + 1 ∧ sentBy i s1.trace = sentBy i s.trace ∧
      ∀ acts2 s2 resp err, run env p s1 acts2 = some s2 → othersOnly i acts2 = true →
        s2.halted = none → err.isSome = true ∨ resp.isSome = true →
        ∃ s3 tr c, step env p s2 (.doReturn i resp err) = some s3 ∧ s3.halted = none ∧
          s3.workers[i]? = some { w1 with pc := .send tr c } ∧
          sentBy i s3.trace = sentBy i s.trace ∧
          ∀ acts3 s4, run env p s3 acts3 = some s4 → othersOnly i acts3 = true →
            s4.halted = none → s4.main ≠ .returned →
            ∃ s5 w5, step env p s4 (.send i) = some s5 ∧ s5.halted = none ∧
              s5.delivered = s4.delivered ++ [tr] ∧
              s5.workers[i]? = some w5 ∧ w5.pc = .select ∧
              sentBy i s5.trace = sentBy i s.trace + 1 ∧
              pulledBy i s5.trace = pulledBy i s.trace + 1 := by
  have hi := reachable_inv hrun
  have hid := worker_id hi hw
  refine ⟨fun acts0 s0 j wj h0 hl0 hj => (reachable_bal h0 hl0).1 j wj hj,
    fun s0 j wj a sx h ha hj => own_move h ha hj, ?_⟩
  have hstep := pull_enabled env p hlive hw hsel hq hreq
  have hi1 := step_inv hi hstep
  have hw1 := getElem?_set_same
    { w with jar := w.jar ++ [(req.URL, req.Cookies)], pc := WorkerPc.doing entry req s.now } hw
  have hp1 : pulledBy i (s.trace ++ [.pulled w.args.worker entry]) = pulledBy i s.trace + 1 := by
    rw [pulledBy_append]; simp [pulledBy, Event.isPulledBy, hid]
  have hs1 : sentBy i (s.trace ++ [.pulled w.args.worker entry]) = sentBy i s.trace := by
    rw [sentBy_append]; simp [sentBy, Event.isSentBy]
  refine ⟨_, _, hstep, hlive, hw1, rfl, hp1, hs1, ?_⟩
  intro acts2 s2 resp err hrun2 ho2 hl2 hdo
  obtain ⟨hi2, hw2, hsent2, hpull2⟩ := run_frame hi1 hrun2 ho2 hw1
  obtain ⟨tr, c, logs, hstep2, _⟩ := doReturn_enabled env p resp err hl2 hw2 rfl hdo
  have hi3 := step_inv hi2 hstep2
  have hw3 := getElem?_set_same
    { ({ w with jar := w.jar ++ [(req.URL, req.Cookies)],
                pc := WorkerPc.doing entry req s.now } : Worker) with
      pc := WorkerPc.send tr c } hw2
  refine ⟨_, tr, c, hstep2, hl2, hw3, ?_, ?_⟩
  · show sentBy i s2.trace = sentBy i s.trace
    rw [hsent2]; exact hs1
  intro acts3 s4 hrun3 ho3 hl4 hm4
  obtain ⟨hi4, hw4, hsent4, hpull4⟩ := run_frame hi3 hrun3 ho3 hw3
  have hstep4 := send_enabled env p hl4 hw4 rfl (open_of_not_returned hi4 hm4)
    (sink_of_worker hi4 hw4)
  refine ⟨_, _, hstep4, hl4, rfl, getElem?_set_same _ hw4, rfl, ?_, ?_⟩
  · show sentBy i (s4.trace ++ [.sent w.args.worker tr]) = sentBy i s.trace + 1
    rw [sentBy_append, hsent4]
    show sentBy i s2.trace + _ = _
    rw [hsent2, hs1]
    simp [sentBy, Event.isSentBy, hid]
  · show pulledBy i (s4.trace ++ [.sent w.args.worker tr]) = pulledBy i s.trace + 1
    rw [pulledBy_append, hpull4]
    show pulledBy i s2.trace + _ = _
    rw [hpull2, hp1]
    simp [pulledBy, Event.isPulledBy]

/-- Witness for C2 (amended): the worker of `demoParams` takes the queued
entry, `httpClient.Do` answers with status 200 while other goroutines move, and
the send is accepted: one more entry taken, one more result sent. -/
theorem processEntries_sends_exactly_one_result_witness :
    step demoEnv demoParams demoAtSendLater (.send 0) = some demoSent ∧
      demoSent.delivered.length = demoAtSendLater.delivered.length + 1 ∧
      sentBy 0 demoSent.trace = sentBy 0 demoQueued.trace + 1 ∧
      pulledBy 0 demoSent.trace = pulledBy 0 demoQueued.trace + 1 := by
  obtain ⟨_, _, s1, w1, h1, _, _, _, _, _, hrest⟩ :=
    processEntries_sends_exactly_one_result demoEnv demoParams 0 queuedSchedule demoQueued 0
      demoQueuedWorker demoEntry [] demoRequest (by decide) (by decide) (by decide)
      (by decide) (by decide) rfl
  have e1 : s1 = demoPulled := by
    have h : step demoEnv demoParams demoQueued (.pull 0) = some demoPulled := by decide
    rw [h] at h1
    exact (Option.some.inj h1).symm
  subst e1
  obtain ⟨s3, tr, c, h3, _, _, _, hrest2⟩ :=
    hrest [.waitSleep, .tick 3000005] demoPulledLater (some ⟨200⟩) none (by decide)
      (by decide) (by decide) (Or.inr rfl)
  have e3 : s3 = demoAtSend := by
    have h : step demoEnv demoParams demoPulledLater (.doReturn 0 (some ⟨200⟩) none) =
        some demoAtSend := by decide
    rw [h] at h3
    exact (Option.some.inj h3).symm
  subst e3
  obtain ⟨s5, w5, h5, _, hdel, _, _, hs, hp⟩ :=
    hrest2 [.supply demoEntry] demoAtSendLater (by decide) (by decide) (by decide)
      (by decide)
  have e5 : s5 = demoSent := by
    have h : step demoEnv demoParams demoAtSendLater (.send 0) = some demoSent := by decide
    rw [h] at h5
    exact (Option.some.inj h5).symm
  subst e5
  exact ⟨h5, by rw [hdel]; simp, hs, hp⟩

/-- C4 (the claim as stated fails): the deadline fires while a request is in
flight, `LoadTest` returns and closes `results`, and the worker's send of the
finished request's result hits the closed channel; nothing is delivered. -/
theorem result_lost_when_deadline_fires_in_flight :
    (run demoEnv demoParams (init 0) inFlightSchedule).map
        (fun s => (s.halted, s.delivered, s.resultsClosed)) =
      some (some (.sendOnClosed inFlightResult), [], true) := by
  decide

/-- C4 (amended): in every run, `results` is closed only once `LoadTest` has
returned, which is after the cancellation signal fired; and as long as
`LoadTest` has not returned and the process is alive, a worker's send on
`results` is accepted: the result reaches the sink and nothing panics. -/
theorem results_accepted_until_LoadTest_returns (env : Env) (p : Params) (T : Int)
    (acts : List Action) (s : State) (i : Nat) (w : Worker) (tr : TestResult) (c : Bool)
    (hrun : run env p (init T) acts = some s) (hlive : s.halted = none)
    (hw : s.workers[i]? = some w) (hpc : w.pc = .send tr c) :
    (s.resultsClosed = true → s.main = .returned ∧ s.stopClosed = true) ∧
    (s.main ≠ .returned →
      ∃ s1, step env p s (.send i) = some s1 ∧ s1.delivered = s.delivered ++ [tr] ∧
        s1.halted = none) := by
  have hi := reachable_inv hrun
  refine ⟨fun hc => ⟨hi.closed hc, hi.returned (hi.closed hc)⟩, fun hm => ?_⟩
  have hopen : s.resultsClosed = false := by
    cases h : s.resultsClosed with
    | false => rfl
    | true => exact absurd (hi.closed h) hm
  have hs := sink_of_worker hi hw
  rw [step_live hlive]
  simp [stepSend, hw, hpc, hopen, hs, hlive]

/-- Witness for C4 (amended): the run of `demoParams` with its worker at the
send while `LoadTest` is still blocked. -/
theorem results_accepted_until_LoadTest_returns_witness :
    ∃ s1, step demoEnv demoParams demoSending (.send 0) = some s1 ∧
      s1.delivered = demoSending.delivered ++ [inFlightResult] ∧ s1.halted = none :=
  (results_accepted_until_LoadTest_returns demoEnv demoParams 0 sendingSchedule
    demoSending 0 demoSendingWorker inFlightResult false (by decide) (by decide) (by decide)
    (by decide)).2 (by decide)

/-- C5 (the code departs from the claim): when `http_proxy` is set to a value
`url.Parse` rejects, the set-up of `processEntries` logs the error and then
panics in `proxy.FromURL` on the nil URL; no transport is produced, dialing
directly or otherwise. -/
theorem setup_panics_on_rejected_proxy (env : Env) (insecureSkipVerify : Bool)
    (proxyServer err : String) (hset : env.LookupEnv "http_proxy" = some proxyServer)
    (hbad : env.urlParse proxyServer = .error err) :
    processEntries.setup env insecureSkipVerify = ([.invalidProxy none], .error .nilProxyURL) := by
  simp [processEntries.setup, processEntries.chooseDialer, hset, hbad]

/-- Witness for C5: `http_proxy` set to `":"`. -/
theorem setup_panics_on_rejected_proxy_witness :
    processEntries.setup badProxyEnv false = ([.invalidProxy none], .error .nilProxyURL) :=
  setup_panics_on_rejected_proxy badProxyEnv false ":" "missing protocol scheme" rfl rfl

/-- C6 (the code departs from the claim): whenever the set-up of
`processEntries` completes, the transport's dial function is the `Dial` of the
proxy dialer chosen in lines 66–76, not the `net.Dialer` with the 30 s connect
timeout and keep-alive of lines 80–83 (line 97 overwrites it); the other
settings are the ones of the literal. -/
theorem setup_transport_settings (env : Env) (insecureSkipVerify : Bool) (t : Transport)
    (h : (processEntries.setup env insecureSkipVerify).2 = .ok t) :
    (∃ d, t.Dial = .ofDialer d) ∧ t.Dial ≠ .netDialer (30 * Second) (30 * Second) ∧
      (env.LookupEnv "http_proxy" = none →
        t.Dial = .ofDialer .Direct ∧ t.Dial.settings = some (0, 0)) ∧
      t.TLSHandshakeTimeout = 10 * Second ∧ t.ResponseHeaderTimeout = 10 * Second ∧
      t.ExpectContinueTimeout = 1 * Second ∧ t.InsecureSkipVerify = insecureSkipVerify := by
  unfold processEntries.setup at h
  split at h
  · simp at h
  · rename_i logs dialer hd
    cases dialer with
    | none => simp at h
    | some d =>
      simp only [Except.ok.injEq] at h
      subst h
      refine ⟨⟨d, rfl⟩, by simp, ?_, rfl, rfl, rfl, rfl⟩
      intro hnone
      simp [processEntries.chooseDialer, hnone] at hd
      obtain ⟨_, hd2⟩ := hd
      subst hd2
      exact ⟨rfl, rfl⟩

/-- Witness for C6: without a proxy the worker dials with `proxy.Direct`, that
is without a connect timeout. -/
theorem setup_transport_settings_witness :
    (processEntries.setup demoEnv true).2 = .ok demoTransport ∧
      demoTransport.Dial ≠ .netDialer (30 * Second) (30 * Second) ∧
      demoTransport.Dial.settings = some (0, 0) ∧
      demoTransport.TLSHandshakeTimeout = 10 * Second :=
  have h := setup_transport_settings demoEnv true demoTransport rfl
  ⟨rfl, h.2.1, (h.2.2.1 rfl).2, h.2.2.2.1⟩

/-- C7: in every run of `LoadTest` called at time `T` (for every worker count
and duration, so for `N ≥ 1` and `D > 0`), `LoadTest` has returned only if the
cancellation signal has fired; the signal is fired by no step other than the
one in which `wait` leaves `time.Sleep(D)`, entered no earlier than `T`; and so
whenever the signal has fired or `LoadTest` has returned the clock shows at
least `T + D`. -/
theorem LoadTest_returns_no_earlier_than_timeout (env : Env) (p : Params) (T : Int)
    (acts : List Action) (s : State) (hrun : run env p (init T) acts = some s) :
    (s.main = .returned → s.stopClosed = true) ∧
    (s.stopClosed = true → s.waiter = .done ∧ T + p.timeout ≤ s.now) ∧
    (∀ a s1, s.stopClosed = false → step env p s a = some s1 → s1.stopClosed = true →
      a = .waitClose ∧ ∃ wake, s.waiter = .sleeping wake ∧ T + p.timeout ≤ wake ∧
        wake ≤ s.now) ∧
    (s.main = .returned → T + p.timeout ≤ s.now) := by
  have hi := reachable_inv hrun
  refine ⟨hi.returned, hi.fired, ?_, fun hm => (hi.fired (hi.returned hm)).2⟩
  intro a s1 h0 hs h1
  obtain ⟨ha, wake, hw, hle⟩ := step_fires hs h0 h1
  exact ⟨ha, wake, hw, hi.sleeping wake hw, hle⟩

/-- Witness for C7: one worker, a timeout of 5, called at time 100: `LoadTest`
returns, and the clock shows 105. -/
theorem LoadTest_returns_no_earlier_than_timeout_witness :
    demoReturned.main = .returned ∧ demoReturned.now = 105 ∧
      (100 : Int) + demoParams.timeout ≤ demoReturned.now :=
  ⟨by decide, by decide,
    (LoadTest_returns_no_earlier_than_timeout demoEnv demoParams 100 returningSchedule
      demoReturned (by decide)).2.2.2 (by decide)⟩

/-- C9 (the claim as stated fails): `LoadTest` returns while the worker is
inside `httpClient.Do`; the call then returns an error, the worker's send of
the status-0 result hits the closed `results`, and the worker never gets back
to its select: the entry waiting in the queue is not taken. -/
theorem request_error_after_return_ends_worker :
    (run demoEnv demoParams (init 0) errorClosedSchedule).map
        (fun s => (s.halted, s.delivered, s.entries, s.workers.map Worker.pc)) =
      some (some (.sendOnClosed errorClosedResult), [], [demoEntry],
        [.send errorClosedResult true]) ∧
    run demoEnv demoParams (init 0) (errorClosedSchedule ++ [.pull 0]) = none := by
  decide

/-- C9 (amended): an error returned by `httpClient.Do` does not by itself end
the worker. A worker moves only as its control point allows (from inside
`httpClient.Do` by the return of the call, from a send statement by the send,
from the select by one of its two cases). In every run, from every live state with the worker inside
`httpClient.Do`, the error takes the worker to the send of a status-0 result;
whatever the other goroutines do meanwhile, if the process is alive and
`LoadTest` has not returned when the worker sends, the result is delivered and
the worker stands at its select again with its locals as before (`continue`);
and whatever the others do after that, while the process is alive the worker
stays at the select, takes the next entry of the queue when there is one that
translates, and can observe the cancellation signal once it has fired. -/
theorem processEntries_survives_request_error (env : Env) (p : Params) (T : Int)
    (acts : List Action) (s : State) (i : Nat) (w : Worker) (entry : Entry) (req : Request)
    (startTime : Int) (resp : Option Response) (e : String)
    (hrun : run env p (init T) acts = some s) (hlive : s.halted = none)
    (hw : s.workers[i]? = some w) (hpc : w.pc = .doing entry req startTime) :
    (∀ s0 j wj a sx, step env p s0 a = some sx → a.worker = some j →
      s0.workers[j]? = some wj → wj.pc.allows a = true) ∧
    ∃ s1 tr, step env p s (.doReturn i resp (some e)) = some s1 ∧ s1.halted = none ∧
      tr.Status = 0 ∧ s1.workers[i]? = some { w with pc := .send tr true } ∧
      ∀ acts2 s2, run env p s1 acts2 = some s2 → othersOnly i acts2 = true →
        s2.halted = none → s2.main ≠ .returned →
        ∃ s3, step env p s2 (.send i) = some s3 ∧ s3.halted = none ∧
          s3.delivered = s2.delivered ++ [tr] ∧
          s3.workers[i]? = some { w with pc := .select } ∧
          ∀ acts3 s4, run env p s3 acts3 = some s4 → othersOnly i acts3 = true →
            s4.halted = none →
            s4.workers[i]? = some { w with pc := .select } ∧
            (∀ next rest req2, s4.entries = next :: rest →
              env.EntryToRequest next w.args.ignoreHarCookies = (some req2, none) →
              ∃ s5 w5, step env p s4 (.pull i) = some s5 ∧ s5.halted = none ∧
                s5.entries = rest ∧ s5.workers[i]? = some w5 ∧
                w5.pc = .doing next req2 s4.now) ∧
            (s4.stopClosed = true →
              ∃ s5, step env p s4 (.observeStop i) = some s5 ∧ s5.halted = none) := by
  have hi := reachable_inv hrun
  obtain ⟨tr, c, logs, hstep, hE⟩ :=
    doReturn_enabled env p resp (some e) hlive hw hpc (Or.inl rfl)
  obtain ⟨hst, hc⟩ := hE rfl
  subst hc
  have hi1 := step_inv hi hstep
  have hw1 := getElem?_set_same { w with pc := WorkerPc.send tr true } hw
  refine ⟨fun s0 j wj a sx h ha hj => own_move h ha hj, _, tr, hstep, hlive, hst, hw1, ?_⟩
  intro acts2 s2 hrun2 ho2 hl2 hm2
  obtain ⟨hi2, hw2, _, _⟩ := run_frame hi1 hrun2 ho2 hw1
  have hstep2 := send_enabled env p hl2 hw2 rfl (open_of_not_returned hi2 hm2)
    (sink_of_worker hi2 hw2)
  have hi3 := step_inv hi2 hstep2
  have hw3 : (s2.workers.set i { w with pc := .select })[i]? = some { w with pc := .select } :=
    getElem?_set_same _ hw2
  refine ⟨_, hstep2, hl2, rfl, hw3, ?_⟩
  intro acts3 s4 hrun3 ho3 hl4
  obtain ⟨hi4, hw4, _, _⟩ := run_frame hi3 hrun3 ho3 hw3
  refine ⟨hw4, ?_, ?_⟩
  · intro next rest req2 hent hreq
    have h5 := pull_enabled env p hl4 hw4 rfl hent hreq
    exact ⟨_, _, h5, hl4, rfl, getElem?_set_same _ hw4, rfl⟩
  · intro hstop
    exact ⟨_, observeStop_enabled env p hl4 hw4 rfl hstop, hl4⟩

/-- Witness for C9 (amended): the request of `demoInDo` fails with a refused
connection while `LoadTest` is still blocked; the worker sends its status-0
result and, a moment later, takes the queued entry. -/
theorem processEntries_survives_request_error_witness :
    step demoEnv demoParams demoErrAtSendLater (.send 0) = some demoErrSent ∧
      demoErrSent.delivered.map (fun r => r.Status) = [0] ∧
      ∃ s5 w5, step demoEnv demoParams demoErrSentLater (.pull 0) = some s5 ∧
        s5.halted = none ∧ s5.entries = [] ∧ s5.workers[0]? = some w5 ∧
        w5.pc = .doing demoEntry demoRequest demoErrSentLater.now := by
  obtain ⟨_, s1, tr, h1, _, _, _, hrest⟩ :=
    processEntries_survives_request_error demoEnv demoParams 0 inDoSchedule demoInDo 0
      demoInDoWorker demoEntry demoRequest 0 none "connection refused" (by decide)
      (by decide) (by decide) (by decide)
  have e1 : s1 = demoErrAtSend := by
    have h : step demoEnv demoParams demoInDo (.doReturn 0 none (some "connection refused")) =
        some demoErrAtSend := by decide
    rw [h] at h1
    exact (Option.some.inj h1).symm
  subst e1
  obtain ⟨s3, h3, _, _, _, hrest2⟩ :=
    hrest [.waitSleep] demoErrAtSendLater (by decide) (by decide) (by decide) (by decide)
  have e3 : s3 = demoErrSent := by
    have h : step demoEnv demoParams demoErrAtSendLater (.send 0) = some demoErrSent := by
      decide
    rw [h] at h3
    exact (Option.some.inj h3).symm
  subst e3
  obtain ⟨_, hpull, _⟩ :=
    hrest2 [.tick 1] demoErrSentLater (by decide) (by decide) (by decide)
  obtain ⟨s5, w5, g1, g2, g3, g4, g5⟩ := hpull demoEntry [] demoRequest (by decide) rfl
  exact ⟨h3, by decide, s5, w5, g1, g2, g3, g4, g5⟩

end Hargo
